import Mathlib

/-!
Verification of `github-kb.py`, a CLI maintaining a local knowledge base of
cloned repositories.  The Python functions are shallowly embedded as total
Lean functions over `List Char` / `String`; filesystem state is an explicit
association list, external process invocation is represented by the command
list that would be executed, and `raise` is modelled with `Except`/`Option`.
-/

namespace GithubKB

/-! ## Basic Python string primitives -/

/-- Lowercasing a character sequence, as Python `str.lower` does on ASCII text
(`Char.toLower` agrees with Python on the ASCII range used by this tool). -/
def lowerChars (l : List Char) : List Char := l.map Char.toLower

/-- A regex `\w` word character on the ASCII range: letters, digits, underscore. -/
def isWordChar (c : Char) : Bool := c.isAlphanum || c == '_'

/-- Accumulator pass for `re.findall(r"\w+", s)`: maximal runs of word
characters in order of occurrence.  `acc` holds the current in-progress run,
reversed. -/
def wordTokensAux : List Char → List Char → List (List Char)
  | [], acc => if acc.isEmpty then [] else [acc.reverse]
  | c :: rest, acc =>
    if isWordChar c then wordTokensAux rest (c :: acc)
    else if acc.isEmpty then wordTokensAux rest []
    else acc.reverse :: wordTokensAux rest []

/-- `re.findall(r"\w+", s)`: the maximal word-character runs of `s`. -/
def wordTokens (l : List Char) : List (List Char) := wordTokensAux l []

/-- `ask_local_code` line 482: `re.findall(r"\w+", query.lower())`. -/
def queryKeywords (q : List Char) : List (List Char) := wordTokens (lowerChars q)

/-- Python substring containment `needle in hay` (`str.__contains__`). -/
def containsSub (needle : List Char) : List Char → Bool
  | [] => needle.isPrefixOf []
  | c :: rest => needle.isPrefixOf (c :: rest) || containsSub needle rest

/-- `ask_local_code` line 492:
`sum(1 for kw in keywords if kw in content.lower())`. -/
def keywordScore (keywords : List (List Char)) (content : List Char) : Nat :=
  (keywords.filter (fun kw => containsSub kw (lowerChars content))).length

/-! ## `ask_local_code` (lines 452-521) -/

/-- One `CLAUDE.md` file found by the glob: its path and the result of
`read_file_safe` (`none` models a missing/undecodable file). -/
structure DocFile where
  path : String
  content : Option (List Char)
deriving DecidableEq

/-- The knowledge-base world visible to `ask_local_code`: whether the root
directory exists, and the `CLAUDE.md` files the recursive glob would find. -/
structure KBWorld where
  rootExists : Bool
  claudeFiles : List DocFile
deriving DecidableEq

/-- Observable outcome of `ask_local_code`; each constructor corresponds to one
of the four return paths of the Python function.  `kbNotFound` is the guided
"Knowledge base not found" message, `noIndexedRepos` the "No indexed repos
found" message, `noMatches` the "No matches found" message, and `results`
carries the emitted `(score, path, content)` triples in emission order. -/
inductive AskOutcome where
  | kbNotFound
  | noIndexedRepos
  | noMatches
  | results (rs : List (Nat × String × List Char))
deriving DecidableEq

/-- Comparison used to model `results.sort(key=lambda x: x[0], reverse=True)`:
a stable sort placing higher scores first. -/
def scoreDescending (a b : Nat × String × List Char) : Bool := decide (b.1 ≤ a.1)

/-- Lines 486-494 of `ask_local_code`: read each file (skipping unreadable or
empty ones, `if not content: continue`), score it, and keep it only when the
score is positive. -/
def scoredDocs (keywords : List (List Char)) (files : List DocFile) :
    List (Nat × String × List Char) :=
  files.filterMap (fun f =>
    match f.content with
    | none => none
    | some [] => none
    | some content =>
      let score := keywordScore keywords content
      if score > 0 then some (score, f.path, content) else none)

/-- `ask_local_code(query, kb_dir)`.  Returns the outcome together with the
number of index files read (`read_file_safe` calls); the Python body contains
no `raise`, and this embedding is correspondingly total. -/
def ask_local_code (query : List Char) (w : KBWorld) : AskOutcome × Nat :=
  if !w.rootExists then (AskOutcome.kbNotFound, 0)
  else if w.claudeFiles.isEmpty then (AskOutcome.noIndexedRepos, 0)
  else
    let scored := scoredDocs (queryKeywords query) w.claudeFiles
    let sorted := scored.mergeSort scoreDescending
    if sorted.isEmpty then (AskOutcome.noMatches, w.claudeFiles.length)
    else (AskOutcome.results (sorted.take 5), w.claudeFiles.length)

/-! ### Concrete documents for the worked `ask` example of the spec -/

/-- The spec's example query. -/
def exQuery : List Char := "reinforcement learning environments".toList

/-- Index text of document D1: contains "reinforcement" and "learning". -/
def exC1 : List Char := "reinforcement learning toolkit".toList

/-- Document D1 of the spec's scoring example. -/
def exD1 : DocFile := ⟨"kb/org/rl-envs/CLAUDE.md", some exC1⟩

/-- Document D2 of the spec's scoring example: contains neither keyword. -/
def exD2 : DocFile := ⟨"kb/org/vision/CLAUDE.md", some "image classification models".toList⟩

/-! ### Facts about the scoring pipeline -/

/-- Every triple kept by the scoring loop has positive score, comes from one of
the globbed files, and its score is the keyword count of that file's text. -/
theorem scoredDocs_mem {keywords : List (List Char)} {files : List DocFile}
    {r : Nat × String × List Char} (h : r ∈ scoredDocs keywords files) :
    0 < r.1 ∧ r.1 = keywordScore keywords r.2.2 ∧
      ∃ f ∈ files, f.content = some r.2.2 ∧ r.2.1 = f.path := by
  simp only [scoredDocs, List.mem_filterMap] at h
  obtain ⟨f, hf, heq⟩ := h
  cases hc : f.content with
  | none => rw [hc] at heq; simp at heq
  | some content =>
    cases content with
    | nil => rw [hc] at heq; simp at heq
    | cons c cs =>
      rw [hc] at heq
      simp only [gt_iff_lt] at heq
      split at heq
      · obtain rfl := Option.some.inj heq
        refine ⟨by assumption, rfl, f, hf, hc, rfl⟩
      · exact absurd heq (by simp)

theorem scoreDescending_trans (a b c : Nat × String × List Char) :
    scoreDescending a b → scoreDescending b c → scoreDescending a c := by
  simp only [scoreDescending, decide_eq_true_eq]
  omega

theorem scoreDescending_total (a b : Nat × String × List Char) :
    scoreDescending a b || scoreDescending b a := by
  simp only [scoreDescending, Bool.or_eq_true, decide_eq_true_eq]
  exact (Nat.le_total b.1 a.1)

/-- When `ask_local_code` reaches its results branch, the emitted list is the
first five entries of the stable descending sort of the scored documents. -/
theorem ask_results_eq {query : List Char} {files : List DocFile}
    {rs : List (Nat × String × List Char)} {n : Nat}
    (h : ask_local_code query ⟨true, files⟩ = (AskOutcome.results rs, n)) :
    rs = ((scoredDocs (queryKeywords query) files).mergeSort scoreDescending).take 5 := by
  cases files with
  | nil => simp [ask_local_code] at h
  | cons f0 fs =>
    simp only [ask_local_code, Bool.not_true, Bool.false_eq_true, if_false,
      List.isEmpty_cons, Bool.false_eq_true] at h
    split at h
    · exact absurd (congrArg Prod.fst h) (by simp)
    · exact (AskOutcome.results.inj (congrArg Prod.fst h)).symm

/-- **C1** Local Index Query relevance scoring: whenever `ask_local_code`
emits results, each emitted document carries score equal to the number of
query tokens (lowercase word tokens of the query) occurring as substrings of
the document's lowercased text, every emitted score is positive (score-0
documents are excluded), scores are in descending order, and at most 5
results are emitted.  Concretely, for D1 containing "reinforcement" and
"learning" and D2 containing neither, the query
"reinforcement learning environments" yields exactly D1 with score 2. -/
theorem C1_local_index_query_scoring :
    (∀ (query : List Char) (files : List DocFile)
        (rs : List (Nat × String × List Char)) (n : Nat),
      ask_local_code query ⟨true, files⟩ = (AskOutcome.results rs, n) →
        rs.length ≤ 5 ∧
        rs.Pairwise (fun a b => b.1 ≤ a.1) ∧
        (∀ r ∈ rs, 0 < r.1 ∧ r.1 = keywordScore (queryKeywords query) r.2.2 ∧
          ∃ f ∈ files, f.content = some r.2.2 ∧ r.2.1 = f.path)) ∧
    ask_local_code exQuery ⟨true, [exD1, exD2]⟩
      = (AskOutcome.results [(2, "kb/org/rl-envs/CLAUDE.md", exC1)], 2) := by
  constructor
  · intro query files rs n h
    obtain rfl := ask_results_eq h
    refine ⟨List.length_take_le _ _, ?_, ?_⟩
    · have hs := List.sorted_mergeSort scoreDescending_trans scoreDescending_total
        (scoredDocs (queryKeywords query) files)
      have hs' : ((scoredDocs (queryKeywords query) files).mergeSort
          scoreDescending).Pairwise (fun a b => b.1 ≤ a.1) :=
        hs.imp (fun hab => by simpa [scoreDescending] using hab)
      exact hs'.sublist (List.take_sublist _ _)
    · intro r hr
      exact scoredDocs_mem (List.mem_mergeSort.mp (List.mem_of_mem_take hr))
  · have h1 : scoredDocs (queryKeywords exQuery) [exD1, exD2]
        = [(2, "kb/org/rl-envs/CLAUDE.md", exC1)] := by decide
    simp [ask_local_code, h1, List.mergeSort]

/-- Witness for C1: the concrete two-document knowledge base instantiates the
universally quantified part of the scoring theorem. -/
theorem C1_local_index_query_scoring_witness :
    ([(2, "kb/org/rl-envs/CLAUDE.md", exC1)] :
        List (Nat × String × List Char)).length ≤ 5 ∧
    ([(2, "kb/org/rl-envs/CLAUDE.md", exC1)] :
        List (Nat × String × List Char)).Pairwise (fun a b => b.1 ≤ a.1) ∧
    (∀ r ∈ ([(2, "kb/org/rl-envs/CLAUDE.md", exC1)] :
        List (Nat × String × List Char)),
      0 < r.1 ∧ r.1 = keywordScore (queryKeywords exQuery) r.2.2 ∧
      ∃ f ∈ [exD1, exD2], f.content = some r.2.2 ∧ r.2.1 = f.path) :=
  C1_local_index_query_scoring.1 exQuery [exD1, exD2]
    [(2, "kb/org/rl-envs/CLAUDE.md", exC1)] 2
    C1_local_index_query_scoring.2

/-- **C9** Local Index Query on a nonexistent knowledge-base root is not an
error: for every query and any files, when the root directory is absent the
call returns the guided "not found" outcome, returns normally (the embedding
is total, mirroring the exception-free Python body, so the top-level
dispatcher exits 0), and reads no files. -/
theorem C9_ask_missing_root_guided :
    ∀ (query : List Char) (files : List DocFile),
      ask_local_code query ⟨false, files⟩ = (AskOutcome.kbNotFound, 0) := by
  intro query files
  simp [ask_local_code]

/-- **C10** Query tokens are counted with multiplicity: keyword scoring is
additive over the token list, a token list repeating one word `n` times
scores `n` on any document containing that word, and concretely the query
"cat cat cat" tokenizes to three copies of "cat", scores 3 on a document
containing "cat" once, while the single distinct token would score only 1. -/
theorem C10_score_multiplicity :
    (∀ (ks1 ks2 : List (List Char)) (c : List Char),
      keywordScore (ks1 ++ ks2) c = keywordScore ks1 c + keywordScore ks2 c) ∧
    (∀ (kw c : List Char) (n : Nat), containsSub kw (lowerChars c) = true →
      keywordScore (List.replicate n kw) c = n) ∧
    (queryKeywords "cat cat cat".toList = List.replicate 3 "cat".toList ∧
     keywordScore (queryKeywords "cat cat cat".toList) "my cat purrs".toList = 3 ∧
     keywordScore ["cat".toList] "my cat purrs".toList = 1) := by
  refine ⟨?_, ?_, by decide, by decide, by decide⟩
  · intro ks1 ks2 c
    simp [keywordScore, List.filter_append]
  · intro kw c n h
    induction n with
    | zero => simp [keywordScore]
    | succ m ih =>
      simp only [keywordScore, List.replicate_succ, List.filter_cons, h,
        if_pos, List.length_cons] at ih ⊢
      omega

/-- Witness for C10: the repeated-token law applied at a concrete token and
document. -/
theorem C10_score_multiplicity_witness :
    containsSub "cat".toList (lowerChars "my cat purrs".toList) = true ∧
    keywordScore (List.replicate 3 "cat".toList) "my cat purrs".toList = 3 :=
  ⟨by decide, C10_score_multiplicity.2.1 "cat".toList "my cat purrs".toList 3 (by decide)⟩

/-! ## Requirements parsing in `extract_tech_stack` (lines 167-174) -/

/-- A character stripped by Python's default `str.strip()` (ASCII range). -/
def isPySpace (c : Char) : Bool :=
  c == ' ' || c == '\t' || c == '\n' || c == '\r' || c == '\x0b' || c == '\x0c'

/-- Python `str.strip()`: remove whitespace from both ends. -/
def pyStrip (l : List Char) : List Char :=
  ((l.dropWhile isPySpace).reverse.dropWhile isPySpace).reverse

/-- Python `str.split("\n")`. -/
def splitLines : List Char → List (List Char)
  | [] => [[]]
  | c :: rest =>
    if c = '\n' then [] :: splitLines rest
    else
      match splitLines rest with
      | [] => [[c]]
      | h :: t => (c :: h) :: t

/-- Python `s.split(pat)[0]` for a nonempty `pat`: the text before the first
occurrence of `pat` (all of `s` when `pat` does not occur). -/
def cutAt (pat : List Char) : List Char → List Char
  | [] => []
  | c :: rest => if pat.isPrefixOf (c :: rest) then [] else c :: cutAt pat rest

/-- The `requirements.txt` branch of `extract_tech_stack` (lines 172-174):
`[line.strip().split("==")[0].split(">=")[0].split("<=")[0]
  for line in content.split("\n")
  if line.strip() and not line.startswith("#")]`. -/
def extract_tech_stack_requirements (content : List Char) : List (List Char) :=
  (splitLines content).filterMap (fun line =>
    if !(pyStrip line).isEmpty && !(['#'].isPrefixOf line) then
      some (cutAt "<=".toList (cutAt ">=".toList (cutAt "==".toList (pyStrip line))))
    else none)

/-- The requirements rule as the spec's words state it (for comparison with
the code): skip a line when it is blank or when its *first non-whitespace*
character is `#`; every other line contributes its stripped text cut at the
first version-pin operator. -/
def claim_requirements (content : List Char) : List (List Char) :=
  ((splitLines content).filter
    (fun line => !(pyStrip line).isEmpty && !((pyStrip line).head? == some '#'))).map
    (fun line => cutAt "<=".toList (cutAt ">=".toList (cutAt "==".toList (pyStrip line))))

/-- The amended rule, matching the code: the comment test is a literal
`startswith("#")` on the raw line, so only lines whose *first* character is
`#` are skipped; blank lines are skipped; every other line contributes its
stripped text cut at the first `==`, `>=`, `<=`. -/
def amended_requirements (content : List Char) : List (List Char) :=
  ((splitLines content).filter
    (fun line => !(pyStrip line).isEmpty && !(line.head? == some '#'))).map
    (fun line => cutAt "<=".toList (cutAt ">=".toList (cutAt "==".toList (pyStrip line))))

/-- **C3** Dependency extraction on
`"numpy==1.2\n# comment\nrequests>=2\n"` yields `["numpy", "requests"]`:
the comment and the blank final line contribute nothing and the version pins
are split off. -/
theorem C3_requirements_example :
    extract_tech_stack_requirements "numpy==1.2\n# comment\nrequests>=2\n".toList
      = ["numpy".toList, "requests".toList] := by decide

/-- **C4 counterexample**: on `"numpy\n  # comment\n"`, whose second line is a
comment by the claim's definition (first non-whitespace character `#`), the
code still emits an entry for it — `line.startswith("#")` is checked on the
unstripped line — so the claim's universally quantified skip rule fails. -/
theorem C4_counterexample :
    extract_tech_stack_requirements "numpy\n  # comment\n".toList
        = ["numpy".toList, "# comment".toList] ∧
    claim_requirements "numpy\n  # comment\n".toList = ["numpy".toList] ∧
    extract_tech_stack_requirements "numpy\n  # comment\n".toList
        ≠ claim_requirements "numpy\n  # comment\n".toList :=
  ⟨by decide, by decide, by decide⟩

theorem filterMap_ite_eq_map_filter {α β : Type} (p : α → Bool) (f : α → β)
    (l : List α) :
    l.filterMap (fun x => if p x then some (f x) else none) = (l.filter p).map f := by
  induction l with
  | nil => rfl
  | cons a t ih => by_cases h : p a <;> simp [List.filterMap_cons, List.filter_cons, h, ih]

theorem isPrefixOf_hash_eq_head (line : List Char) :
    (['#'].isPrefixOf line) = (line.head? == some '#') := by
  cases line with
  | nil => rfl
  | cons c rest =>
    show (('#' == c) && ([] : List Char).isPrefixOf rest) = (some c == some '#')
    rw [show (some c == some '#') = (c == '#') from rfl]
    rw [show (([] : List Char).isPrefixOf rest) = true from by cases rest <;> rfl]
    rw [Bool.and_true]
    cases h : (c == '#') with
    | true =>
      rw [beq_iff_eq] at h
      rw [show ('#' == c) = true from by rw [beq_iff_eq]; exact h.symm]
    | false =>
      rw [beq_eq_false_iff_ne] at h
      rw [show ('#' == c) = false from by rw [beq_eq_false_iff_ne]; exact fun hh => h hh.symm]

/-- **C4 amended**: requirements parsing skips blank lines and lines whose
*first character* is `#` (a comment indented by whitespace is kept); every
other line contributes its stripped text with the first `==`, `>=`, `<=`
and what follows split off. -/
theorem C4_requirements_line_rules :
    ∀ content : List Char,
      extract_tech_stack_requirements content = amended_requirements content := by
  intro content
  rw [extract_tech_stack_requirements, amended_requirements,
    filterMap_ite_eq_map_filter]
  congr 1
  apply List.filter_congr
  intro line _
  rw [isPrefixOf_hash_eq_head]

/-! ## `extract_use_cases_from_readme` (lines 66-84) -/

/-- Lines 79-82: clean one pattern's `findall` matches — `match.strip()[:100]`,
kept only when nonempty and longer than 10 characters. -/
def cleanedMatches (ms : List (List Char)) : List (List Char) :=
  ms.filterMap (fun m =>
    let cleaned := (pyStrip m).take 100
    if !cleaned.isEmpty && decide (10 < cleaned.length) then some cleaned else none)

/-- `extract_use_cases_from_readme`, taking the per-pattern `re.findall`
results as input (`matchess` has one entry per pattern, in the fixed pattern
order; the heuristic regular expressions are the abstracted text-matching
collaborator and every conclusion below holds for all their outputs): the
loop cleans each pattern's matches in order, accumulates them, and line 84
returns the first 3. -/
def extract_use_cases_from_readme (matchess : List (List (List Char))) :
    List (List Char) :=
  ((matchess.map cleanedMatches).flatten).take 3

/-- **C6** Use-case extraction bounds: for all pattern-match results, the
extracted list has at most 3 entries; each entry is a stripped match
truncated to at most 100 characters; and every entry is longer than 10
characters, so no cleaned match under 10 characters ever appears. -/
theorem C6_use_case_bounds :
    ∀ matchess : List (List (List Char)),
      (extract_use_cases_from_readme matchess).length ≤ 3 ∧
      ∀ uc ∈ extract_use_cases_from_readme matchess,
        uc.length ≤ 100 ∧ 10 < uc.length ∧
        ∃ ms ∈ matchess, ∃ m ∈ ms, uc = (pyStrip m).take 100 := by
  intro matchess
  refine ⟨List.length_take_le _ _, ?_⟩
  intro uc hc
  have h1 := List.mem_of_mem_take hc
  simp only [List.mem_flatten, List.mem_map] at h1
  obtain ⟨cleaned, ⟨ms, hms, rfl⟩, hmem⟩ := h1
  simp only [cleanedMatches, List.mem_filterMap] at hmem
  obtain ⟨m, hm, heq⟩ := hmem
  split at heq
  · next hcond =>
    obtain rfl := Option.some.inj heq
    simp only [Bool.and_eq_true, decide_eq_true_eq] at hcond
    exact ⟨List.length_take_le 100 (pyStrip m), hcond.2,
      ms, hms, m, hm, rfl⟩
  · exact absurd heq (by simp)

/-- A concrete findall outcome instantiating the C6 bounds: one long match,
one too-short match. -/
def exMatches : List (List (List Char)) :=
  [["  graph reinforcement learning agents  ".toList], ["short".toList]]

/-- Witness for C6: the bounds theorem evaluated at the concrete findall
outcome `exMatches`. -/
theorem C6_use_case_bounds_witness :
    (extract_use_cases_from_readme exMatches).length ≤ 3 ∧
    ∀ uc ∈ extract_use_cases_from_readme exMatches,
      uc.length ≤ 100 ∧ 10 < uc.length ∧
      ∃ ms ∈ exMatches, ∃ m ∈ ms, uc = (pyStrip m).take 100 :=
  C6_use_case_bounds exMatches

/-! ## `extract_summary_from_readme` (lines 87-160) -/

/-- The dictionary returned by `extract_summary_from_readme`. -/
structure ReadmeSummary where
  summary : List Char
  use_cases : List (List Char)
  description : List Char
deriving DecidableEq

/-- The fixed result when the README is missing, unreadable, or empty
(lines 95-100). -/
def noReadmeSummary : ReadmeSummary :=
  ⟨"No README found".toList, ["Add your use case here".toList], []⟩

/-- `extract_summary_from_readme`.  `content` is the `read_file_safe` result
(`none` for a missing or undecodable file); `paragraphSummary` stands for the
first-paragraph text `" ".join(summary_lines)` assembled by the heuristic
walk of lines 102-147, and `description` for the line-159 join — both are
abstracted text transformations, quantified over in the theorems below;
`matchess` is the findall input of `extract_use_cases_from_readme`
(line 151).  Lines 148 and 152-154 (truncation and the non-empty use-case
fallback) are modelled exactly. -/
def extract_summary_from_readme (content : Option (List Char))
    (paragraphSummary : List Char) (matchess : List (List (List Char)))
    (description : List Char) : ReadmeSummary :=
  match content with
  | none => noReadmeSummary
  | some [] => noReadmeSummary
  | some _ =>
    let summary := paragraphSummary.take 400
    let ucs := extract_use_cases_from_readme matchess
    let ucs2 :=
      if ucs.isEmpty then
        (if !summary.isEmpty then [summary.take 150]
         else ["Add your use case here".toList])
      else ucs
    ⟨summary, ucs2, description⟩

/-- **C7** Text Extractor totality and defaults: the embedding is a total
function (the Python body raises nothing — `read_file_safe` already converts
failures to `None`); a missing/unreadable README and an empty README both
return the fixed placeholder summary `"No README found"` with the non-empty
fallback use-case list; and for every input whatsoever the returned
use-case list is non-empty. -/
theorem C7_extractor_totality_defaults :
    (∀ ps mss d, extract_summary_from_readme none ps mss d = noReadmeSummary) ∧
    (∀ ps mss d, extract_summary_from_readme (some []) ps mss d = noReadmeSummary) ∧
    noReadmeSummary.summary = "No README found".toList ∧
    noReadmeSummary.use_cases = ["Add your use case here".toList] ∧
    (∀ content ps mss d,
      0 < (extract_summary_from_readme content ps mss d).use_cases.length) := by
  refine ⟨fun _ _ _ => rfl, fun _ _ _ => rfl, rfl, rfl, ?_⟩
  intro content ps mss d
  match content with
  | none => simp [extract_summary_from_readme, noReadmeSummary]
  | some [] => simp [extract_summary_from_readme, noReadmeSummary]
  | some (c :: cs) =>
    simp only [extract_summary_from_readme]
    cases h : (extract_use_cases_from_readme mss).isEmpty with
    | true =>
      cases hs : (ps.take 400).isEmpty <;> simp [h, hs]
    | false =>
      cases hu : extract_use_cases_from_readme mss with
      | nil => rw [hu] at h; simp at h
      | cons u us => simp [h, hu]

/-! ## `generate_claude_md` (lines 256-329) -/

/-- The filesystem as `generate_claude_md` sees it: a path-to-content map. -/
structure FS where
  files : List (String × String)
deriving DecidableEq

/-- `Path.exists()`. -/
def FS.fileExists (fs : FS) (p : String) : Bool :=
  fs.files.any (fun q => q.1 == p)

/-- `Path.write_text(content)`: overwrite `p` wholesale. -/
def FS.writeFile (fs : FS) (p : String) (content : String) : FS :=
  ⟨(p, content) :: fs.files.filter (fun q => !(q.1 == p))⟩

/-- `Path.read_text()`. -/
def FS.readFile (fs : FS) (p : String) : Option String :=
  (fs.files.find? (fun q => q.1 == p)).map (fun q => q.2)

/-- `generate_claude_md(repo_path, info, force)` (lines 266-270 and 325-329):
compute `repo_path / "CLAUDE.md"`; if it exists and `force` is false, return
the existing path with no write; otherwise write the generated document and
return the path.  The document text (lines 272-322, serialized from the
extractors above) matters to the guard only as the bytes written, so it is
the `render` argument; the skip branch never evaluates it, exactly as the
Python skip branch returns before generating. -/
def generate_claude_md (render : String) (fs : FS) (repoPath : String)
    (force : Bool) : FS × String :=
  let p := repoPath ++ "/CLAUDE.md"
  if fs.fileExists p && !force then (fs, p)
  else (fs.writeFile p render, p)

theorem FS.fileExists_writeFile (fs : FS) (p c : String) :
    (fs.writeFile p c).fileExists p = true := by
  simp [FS.fileExists, FS.writeFile]

/-- **C5** Index Generator idempotence: when the index document exists and
`force` is false the call performs no write and returns the existing path;
consequently two consecutive invocations without the force flag return the
same filesystem — the document stays byte-identical to the first
invocation's result, whatever the second invocation would have rendered. -/
theorem C5_generate_claude_md_idempotent :
    (∀ (render : String) (fs : FS) (repoPath : String),
      fs.fileExists (repoPath ++ "/CLAUDE.md") = true →
      generate_claude_md render fs repoPath false
        = (fs, repoPath ++ "/CLAUDE.md")) ∧
    (∀ (r1 r2 : String) (fs : FS) (repoPath : String),
      generate_claude_md r2 (generate_claude_md r1 fs repoPath false).1 repoPath false
        = generate_claude_md r1 fs repoPath false) := by
  constructor
  · intro render fs rp h
    simp [generate_claude_md, h]
  · intro r1 r2 fs rp
    by_cases h : fs.fileExists (rp ++ "/CLAUDE.md") = true
    · simp [generate_claude_md, h]
    · simp only [Bool.not_eq_true] at h
      simp [generate_claude_md, h, FS.fileExists_writeFile]

/-- Witness for C5: a filesystem already holding `repo/CLAUDE.md` is returned
unchanged by a forceless invocation. -/
theorem C5_generate_claude_md_idempotent_witness :
    (FS.mk [("repo/CLAUDE.md", "old index")]).fileExists ("repo" ++ "/CLAUDE.md") = true ∧
    generate_claude_md "new render" (FS.mk [("repo/CLAUDE.md", "old index")]) "repo" false
      = (FS.mk [("repo/CLAUDE.md", "old index")], "repo" ++ "/CLAUDE.md") :=
  ⟨by decide, C5_generate_claude_md_idempotent.1 "new render"
    (FS.mk [("repo/CLAUDE.md", "old index")]) "repo" (by decide)⟩

/-! ## `technical_search` (lines 379-449) -/

/-- Python truthiness of an optional string argument (`if state_filter:`). -/
def truthyStr : Option String → Bool
  | none => false
  | some s => !(s == "")

/-- Python truthiness of an optional integer argument (`if min_stars:`). -/
def truthyNat : Option Nat → Bool
  | none => false
  | some n => !(n == 0)

/-- `technical_search` (lines 404-435): build the `gh search` command for the
given search type, append the fixed `--limit 20`, and invoke the external
tool once.  The result is the raised `ValueError` for an unknown search type
(`Except.error`), or the list of external invocations performed
(`Except.ok`, always exactly one command). -/
def technical_search (repo query search_type : String)
    (state_filter label language : Option String) (min_stars : Option Nat)
    (topic : Option String) : Except String (List (List String)) :=
  if search_type = "issues" ∨ search_type = "prs" then
    let cmd := ["gh", "search", search_type, "--repo", repo, query]
    let cmd := if truthyStr state_filter
      then cmd ++ ["--state", state_filter.getD ""] else cmd
    let cmd := if truthyStr label then cmd ++ ["--label", label.getD ""] else cmd
    Except.ok [cmd ++ ["--limit", "20"]]
  else if search_type = "code" then
    let cmd := ["gh", "search", "code", "--repo", repo, query]
    let cmd := if truthyStr language
      then cmd ++ ["--language", language.getD ""] else cmd
    Except.ok [cmd ++ ["--limit", "20"]]
  else if search_type = "repos" then
    let cmd := ["gh", "search", "repos", query]
    let cmd := if truthyStr language
      then cmd ++ ["--language", language.getD ""] else cmd
    let cmd := if truthyNat min_stars
      then cmd ++ ["stars:>=" ++ toString (min_stars.getD 0)] else cmd
    let cmd := if truthyStr topic then cmd ++ ["--topic", topic.getD ""] else cmd
    Except.ok [cmd ++ ["--limit", "20"]]
  else
    Except.error ("Unknown search type: " ++ search_type)

/-- The external commands a `technical_search` outcome has invoked: none when
the dispatcher raised before reaching `run_command`. -/
def searchInvocations : Except String (List (List String)) → List (List String)
  | Except.error _ => []
  | Except.ok cmds => cmds

/-- **C8** Remote Search Dispatcher rejects unknown search types before any
external call: for every search type outside issues/prs/code/repos and all
filter arguments, `technical_search` raises the `ValueError` and the set of
external invocations performed is empty. -/
theorem C8_unknown_search_type_rejected :
    ∀ (repo query stype : String) (sf lb lang : Option String)
      (ms : Option Nat) (tp : Option String),
      stype ∉ (["issues", "prs", "code", "repos"] : List String) →
      technical_search repo query stype sf lb lang ms tp
        = Except.error ("Unknown search type: " ++ stype) ∧
      searchInvocations (technical_search repo query stype sf lb lang ms tp)
        = [] := by
  intro repo query stype sf lb lang ms tp h
  simp only [List.mem_cons, List.not_mem_nil, or_false, not_or] at h
  obtain ⟨h1, h2, h3, h4⟩ := h
  refine ⟨?_, ?_⟩ <;> simp [technical_search, searchInvocations, h1, h2, h3, h4]

/-- Witness for C8: the unknown search type "commits" is rejected with no
external invocation. -/
theorem C8_unknown_search_type_rejected_witness :
    technical_search "o/r" "q" "commits" none none none none none
      = Except.error ("Unknown search type: " ++ "commits") ∧
    searchInvocations (technical_search "o/r" "q" "commits" none none none none none)
      = [] :=
  C8_unknown_search_type_rejected "o/r" "q" "commits" none none none none none
    (by decide)

/-! ## `extract_github_info` (lines 43-55)

The two patterns `github\.com/([^/]+)/([^/]+?)(\.git)?$` and
`github\.com:([^/]+)/([^/]+?)(\.git)?$` are embedded directly: a match
starting at a given position requires the literal host marker followed by
`sep`, then group 1 is the maximal nonempty `/`-free run up to a `/`, and
the remainder `t` up to the end of the string is group 2 plus an optional
literal `.git` plus whatever `$` leaves unconsumed.  Python `$` (no
`re.MULTILINE`) matches at the true end of the string *or just before one
trailing newline*, and `[^/]` matches `\n`, so `t` may be any nonempty
`/`-free tail; which part of `t` lands in group 2 is computed by
`dollarCapture` below (non-greedy group 2 prefers the shortest split, the
greedy optional group 3 takes `.git` when it can).  `re.search` tries every
start position left to right. -/

/-- The literal `github.com`. -/
def ghHost : List Char := "github.com".toList

/-- The literal `.git`. -/
def dotGit : List Char := ".git".toList

/-- Match the literal `pat` at the start of `s`, returning the remainder. -/
def stripLit : List Char → List Char → Option (List Char)
  | [], s => some s
  | _ :: _, [] => none
  | p :: ps, c :: cs => if p == c then stripLit ps cs else none

/-- One attempt of the pattern at the current position: the host marker and
`sep`, then `([^/]+)/`, then `([^/]+?)(\.git)?$` — the tail after the `/`
must be nonempty and `/`-free (group 2, the optional `.git` and the at most
one trailing newline that `$` skips jointly cover it, and none of them can
contain a `/`; conversely any nonempty `/`-free tail matches, since the end
of the string is always a `$` position and `[^/]` accepts `\n`).  Returns
the org and the raw tail; `dollarCapture` then isolates group 2. -/
def tryMatchAt (sep : Char) (s : List Char) : Option (List Char × List Char) :=
  match stripLit (ghHost ++ [sep]) s with
  | none => none
  | some x =>
    let a := x.takeWhile (fun c => !(c == '/'))
    match x.dropWhile (fun c => !(c == '/')) with
    | '/' :: b =>
      if !a.isEmpty && !b.isEmpty && b.all (fun c => !(c == '/')) then
        some (a, b)
      else none
    | _ => none

/-- `re.search`: try every start position, leftmost first. -/
def searchGH (sep : Char) : List Char → Option (List Char × List Char)
  | [] => none
  | c :: rest =>
    match tryMatchAt sep (c :: rest) with
    | some r => some r
    | none => searchGH sep rest

/-- The effect of the non-greedy group 2 against the optional `(\.git)?` at
a tail whose end is a true end-of-string `$` position: when the matched
name ends in `.git` and is longer than `.git` itself, the shortest-match
capture leaves the trailing `.git` to group 3. -/
def captureName (b : List Char) : List Char :=
  if 5 ≤ b.length && dotGit.isSuffixOf b then b.take (b.length - 4) else b

/-- The literal `.git` followed by a newline. -/
def dotGitNl : List Char := ".git\n".toList

/-- Group 2 of `([^/]+?)(\.git)?$` on the full `/`-free tail `t`.  The `$`
positions are the end of `t` and, when `t` ends in `\n`, just before that
final newline; non-greedy group 2 takes the shortest nonempty prefix that
lets the greedy optional `.git` reach a `$` position.  The candidate group-2
lengths are therefore `n-5` (`.git` then the pre-newline `$`), `n-4` (`.git`
then end), `n-1` (pre-newline `$`) and `n` (end), tried in that order, each
requiring a nonempty group 2.  Checked against CPython `re` on all these
shapes. -/
def dollarCapture (t : List Char) : List Char :=
  if 6 ≤ t.length && dotGitNl.isSuffixOf t then t.take (t.length - 5)
  else if 2 ≤ t.length && (['\n'] : List Char).isSuffixOf t then t.take (t.length - 1)
  else captureName t

/-- Python `name.replace(".git", "")`: delete every left-to-right
non-overlapping occurrence of `.git`. -/
def removeDotGit : List Char → List Char
  | '.' :: 'g' :: 'i' :: 't' :: rest => removeDotGit rest
  | c :: rest => c :: removeDotGit rest
  | [] => []

/-- `extract_github_info(url)` (lines 43-55): URL-style pattern first, then
SSH-style; `none` models the raised `ValueError`. -/
def extract_github_info (url : String) : Option (String × String) :=
  match searchGH '/' url.toList with
  | some (a, b) => some (String.mk a, String.mk (removeDotGit (dollarCapture b)))
  | none =>
    match searchGH ':' url.toList with
    | some (a, b) => some (String.mk a, String.mk (removeDotGit (dollarCapture b)))
    | none => none

/-- The name transformation the spec's words describe: strip one trailing
`.git` suffix from the repository name, and nothing else. -/
def specStripTrailingGit (name : List Char) : List Char :=
  if dotGit.isSuffixOf name then name.take (name.length - 4) else name

/-- **C2 counterexample**: `https://github.com/foo/bar.gitx` is of the
recognized form `host/org/name` with repository name `bar.gitx`, which has
no trailing `.git` suffix to strip — yet the code returns name `barx`,
because `str.replace(".git", "")` deletes the *interior* `.git` occurrence.
So "returns the correct (org, name) pair with a trailing .git suffix
stripped" fails on a recognized-form input. -/
theorem C2_counterexample :
    extract_github_info "https://github.com/foo/bar.gitx"
      = some ("foo", "barx") ∧
    String.mk (specStripTrailingGit "bar.gitx".toList) = "bar.gitx" ∧
    ("barx" : String) ≠ "bar.gitx" :=
  ⟨by decide, by decide, by decide⟩

/-! ### Lemmas about the pattern matcher -/

theorem stripLit_append (p rest : List Char) : stripLit p (p ++ rest) = some rest := by
  induction p with
  | nil => rfl
  | cons c cs ih => simp [stripLit, ih]

theorem stripLit_sound {p s x : List Char} (h : stripLit p s = some x) :
    s = p ++ x := by
  induction p generalizing s with
  | nil => cases h; rfl
  | cons c cs ih =>
    cases s with
    | nil => exact absurd h (by simp [stripLit])
    | cons d ds =>
      rw [stripLit] at h
      split at h
      · next hd => rw [beq_iff_eq] at hd; rw [hd, List.cons_append, ih h]
      · exact absurd h (by simp)

theorem takeWhile_slashfree_append (a rest : List Char)
    (ha : a.all (fun c => !(c == '/')) = true) (hr : rest.head? = some '/') :
    (a ++ rest).takeWhile (fun c => !(c == '/')) = a := by
  induction a with
  | nil =>
    cases rest with
    | nil => simp at hr
    | cons r rs =>
      obtain rfl := Option.some.inj hr
      simp
  | cons c cs ih =>
    simp only [List.all_cons, Bool.and_eq_true] at ha
    simp [List.cons_append, List.takeWhile_cons, ha.1, ih ha.2]

theorem dropWhile_slashfree_append (a rest : List Char)
    (ha : a.all (fun c => !(c == '/')) = true) (hr : rest.head? = some '/') :
    (a ++ rest).dropWhile (fun c => !(c == '/')) = rest := by
  induction a with
  | nil =>
    cases rest with
    | nil => simp at hr
    | cons r rs =>
      obtain rfl := Option.some.inj hr
      simp
  | cons c cs ih =>
    simp only [List.all_cons, Bool.and_eq_true] at ha
    simp [List.cons_append, List.dropWhile_cons, ha.1, ih ha.2]

theorem tryMatchAt_exact (sep : Char) (a b : List Char)
    (ha : a ≠ []) (ha2 : a.all (fun c => !(c == '/')) = true)
    (hb : b ≠ []) (hb2 : b.all (fun c => !(c == '/')) = true) :
    tryMatchAt sep (ghHost ++ sep :: (a ++ '/' :: b)) = some (a, b) := by
  have hshape : ghHost ++ sep :: (a ++ '/' :: b)
      = (ghHost ++ [sep]) ++ (a ++ '/' :: b) := by simp
  rw [tryMatchAt, hshape, stripLit_append]
  simp only [takeWhile_slashfree_append a ('/' :: b) ha2 rfl,
    dropWhile_slashfree_append a ('/' :: b) ha2 rfl]
  simp [ha, hb, hb2]

theorem searchGH_cons_found {sep : Char} {c : Char} {rest : List Char} {r}
    (h : tryMatchAt sep (c :: rest) = some r) :
    searchGH sep (c :: rest) = some r := by
  rw [searchGH, h]

theorem searchGH_append (sep : Char) (pre t : List Char)
    (hpre : ∀ i < pre.length, tryMatchAt sep ((pre ++ t).drop i) = none) :
    searchGH sep (pre ++ t) = searchGH sep t := by
  induction pre with
  | nil => rfl
  | cons c cs ih =>
    have h0 := hpre 0 (by simp)
    rw [List.drop_zero, List.cons_append] at h0
    rw [List.cons_append, searchGH, h0]
    exact ih (fun i hi => by
      have hh := hpre (i + 1) (by simp only [List.length_cons]; omega)
      rwa [List.cons_append, List.drop_succ_cons] at hh)

theorem searchGH_none (sep : Char) (l : List Char)
    (h : ∀ i < l.length, tryMatchAt sep (l.drop i) = none) :
    searchGH sep l = none := by
  induction l with
  | nil => rfl
  | cons c rest ih =>
    have h0 := h 0 (by simp)
    rw [List.drop_zero] at h0
    rw [searchGH, h0]
    exact ih (fun i hi => by
      have hh := h (i + 1) (by simp only [List.length_cons]; omega)
      rwa [List.drop_succ_cons] at hh)

theorem tryMatchAt_sound {sep : Char} {s a b : List Char}
    (h : tryMatchAt sep s = some (a, b)) :
    s = ghHost ++ sep :: (a ++ '/' :: b) ∧ a ≠ [] ∧
      a.all (fun c => !(c == '/')) = true ∧ b ≠ [] ∧
      b.all (fun c => !(c == '/')) = true := by
  rw [tryMatchAt] at h
  cases hsp : stripLit (ghHost ++ [sep]) s with
  | none => rw [hsp] at h; exact absurd h (by simp)
  | some x =>
    rw [hsp] at h
    simp only [] at h
    cases hdw : x.dropWhile (fun c => !(c == '/')) with
    | nil => rw [hdw] at h; exact absurd h (by simp)
    | cons d ds =>
      have hd : d = '/' := by
        have hnot := List.head?_dropWhile_not (fun c => !(c == '/')) x
        rw [hdw] at hnot
        simpa using hnot
      subst hd
      rw [hdw] at h
      simp only [] at h
      split at h
      · next hcond =>
        obtain ⟨rfl, rfl⟩ := Prod.mk.injEq _ _ _ _ ▸ Option.some.inj h
        simp only [Bool.and_eq_true] at hcond
        have hx : x = x.takeWhile (fun c => !(c == '/')) ++ '/' :: ds := by
          rw [← hdw, List.takeWhile_append_dropWhile]
        refine ⟨?_, ?_, List.all_takeWhile, ?_, hcond.2⟩
        · rw [stripLit_sound hsp]
          conv_lhs => rw [hx]
          simp
        · intro hnil
          rw [hnil] at hcond
          simp at hcond
        · intro hnil
          rw [hnil] at hcond
          simp at hcond
      · exact absurd h (by simp)

theorem searchGH_sound {sep : Char} {l a b : List Char}
    (h : searchGH sep l = some (a, b)) :
    ∃ pre, l = pre ++ (ghHost ++ sep :: (a ++ '/' :: b)) ∧ a ≠ [] ∧
      a.all (fun c => !(c == '/')) = true ∧ b ≠ [] ∧
      b.all (fun c => !(c == '/')) = true := by
  induction l with
  | nil => exact absurd h (by simp [searchGH])
  | cons c rest ih =>
    rw [searchGH] at h
    cases htry : tryMatchAt sep (c :: rest) with
    | some r =>
      rw [htry] at h
      obtain rfl : r = (a, b) := Option.some.inj h
      obtain ⟨hs, h1, h2, h3, h4⟩ := tryMatchAt_sound htry
      exact ⟨[], by simpa using hs, h1, h2, h3, h4⟩
    | none =>
      rw [htry] at h
      obtain ⟨pre, hp, h1, h2, h3, h4⟩ := ih h
      exact ⟨c :: pre, by rw [List.cons_append, hp], h1, h2, h3, h4⟩

theorem removeDotGit_of_not_contains (l : List Char)
    (h : containsSub dotGit l = false) : removeDotGit l = l := by
  induction l using removeDotGit.induct with
  | case1 rest ih =>
    exfalso
    simp [containsSub, dotGit, List.isPrefixOf] at h
  | case2 c rest hne ih =>
    simp only [containsSub, Bool.or_eq_false_iff] at h
    rw [removeDotGit.eq_def]
    split
    · rename_i rs heq
      exfalso
      injection heq with h1 h2
      exact hne rs h1 h2
    · rename_i x c2 rs heq
      injection heq with h1 h2
      subst h1; subst h2
      rw [ih h.2]
    · rename_i x heq
      exact absurd heq (by simp)
  | case3 => rfl

/-- When the captured name has no `.git` occurrence beyond a possible
trailing suffix, the code's capture-then-replace pipeline computes exactly
what the spec says: the name with one trailing `.git` stripped. -/
theorem captureName_clean (b : List Char)
    (h : containsSub dotGit (specStripTrailingGit b) = false) :
    removeDotGit (captureName b) = specStripTrailingGit b := by
  by_cases hs : dotGit.isSuffixOf b = true
  · by_cases hl : 5 ≤ b.length
    · have hcap : captureName b = b.take (b.length - 4) := by
        simp [captureName, hl, hs]
      have hspec : specStripTrailingGit b = b.take (b.length - 4) := by
        simp [specStripTrailingGit, hs]
      rw [hcap, ← hspec]
      exact removeDotGit_of_not_contains _ h
    · have hb : b = dotGit := by
        rw [List.isSuffixOf_iff_suffix] at hs
        obtain ⟨t, rfl⟩ := hs
        have hlen : (t ++ dotGit).length = t.length + 4 := by
          have h4 : dotGit.length = 4 := rfl
          rw [List.length_append, h4]
        have ht : t = [] := List.eq_nil_of_length_eq_zero (by omega)
        subst ht; rfl
      subst hb
      decide
  · have hcap : captureName b = b := by
      simp [captureName, hs]
    have hspec : specStripTrailingGit b = b := by
      simp [specStripTrailingGit, hs]
    rw [hcap, hspec]
    rw [hspec] at h
    exact removeDotGit_of_not_contains b h

theorem searchGH_head_found {sep : Char} {t : List Char} {r}
    (h : tryMatchAt sep t = some r) : searchGH sep t = some r := by
  cases t with
  | nil =>
    rw [show tryMatchAt sep ([] : List Char) = none from rfl] at h
    exact absurd h (by simp)
  | cons c rest => rw [searchGH, h]

/-- On a tail that does not end in a newline, the only `$` position is the
true end of the string, and `dollarCapture` degenerates to the plain
non-greedy trailing-`.git` capture. -/
theorem dollarCapture_no_newline (t : List Char)
    (hnl : (['\n'] : List Char).isSuffixOf t = false) :
    dollarCapture t = captureName t := by
  have h1 : dotGitNl.isSuffixOf t = false := by
    cases hq : dotGitNl.isSuffixOf t
    · rfl
    · exfalso
      rw [List.isSuffixOf_iff_suffix] at hq
      have h2 : (['\n'] : List Char) <:+ t :=
        List.IsSuffix.trans ⟨".git".toList, rfl⟩ hq
      rw [← List.isSuffixOf_iff_suffix] at h2
      rw [h2] at hnl
      exact absurd hnl (by simp)
  rw [dollarCapture, h1, hnl]
  simp

/-- **C2 amended** URL Parser: for every input of the recognized forms
(`host/org/name[.git]` in URL or SSH style, the pattern match located where
the hypotheses place it), `extract_github_info` returns the org together
with the name transformed by the regex capture (`dollarCapture`: a
long-enough trailing `.git` goes to group 3, and `$` may skip one trailing
newline, which is then excluded from the name) followed by
`replace(".git", "")`, which deletes *every* remaining `.git` occurrence;
when the input has no trailing newline and the name contains no `.git`
occurrence other than possibly the trailing suffix this equals exactly the
spec's "trailing `.git` stripped".  Conversely every successful parse comes
from a recognized-form input (so all other strings raise ParseError); the
spec's three concrete examples hold, as do their trailing-newline
variants. -/
theorem C2_url_parser_amended :
    (∀ pre a b : List Char,
      a ≠ [] → a.all (fun c => !(c == '/')) = true →
      b ≠ [] → b.all (fun c => !(c == '/')) = true →
      (∀ i < pre.length,
        tryMatchAt '/' ((pre ++ (ghHost ++ '/' :: (a ++ '/' :: b))).drop i) = none) →
      extract_github_info (String.mk (pre ++ (ghHost ++ '/' :: (a ++ '/' :: b))))
        = some (String.mk a, String.mk (removeDotGit (dollarCapture b)))) ∧
    (∀ pre a b : List Char,
      a ≠ [] → a.all (fun c => !(c == '/')) = true →
      b ≠ [] → b.all (fun c => !(c == '/')) = true →
      (∀ i < (pre ++ (ghHost ++ ':' :: (a ++ '/' :: b))).length,
        tryMatchAt '/' ((pre ++ (ghHost ++ ':' :: (a ++ '/' :: b))).drop i) = none) →
      (∀ i < pre.length,
        tryMatchAt ':' ((pre ++ (ghHost ++ ':' :: (a ++ '/' :: b))).drop i) = none) →
      extract_github_info (String.mk (pre ++ (ghHost ++ ':' :: (a ++ '/' :: b))))
        = some (String.mk a, String.mk (removeDotGit (dollarCapture b)))) ∧
    (∀ b : List Char, (['\n'] : List Char).isSuffixOf b = false →
      containsSub dotGit (specStripTrailingGit b) = false →
      removeDotGit (dollarCapture b) = specStripTrailingGit b) ∧
    (∀ (url o n : String), extract_github_info url = some (o, n) →
      ∃ sep pre a b, (sep = '/' ∨ sep = ':') ∧
        url.toList = pre ++ (ghHost ++ sep :: (a ++ '/' :: b)) ∧
        a ≠ [] ∧ a.all (fun c => !(c == '/')) = true ∧
        b ≠ [] ∧ b.all (fun c => !(c == '/')) = true ∧
        o = String.mk a ∧ n = String.mk (removeDotGit (dollarCapture b))) ∧
    (extract_github_info "https://github.com/foo/bar.git" = some ("foo", "bar") ∧
     extract_github_info "git@github.com:foo/bar" = some ("foo", "bar") ∧
     extract_github_info "not-a-url" = none ∧
     extract_github_info "github.com/a/b\n" = some ("a", "b") ∧
     extract_github_info "https://github.com/foo/bar.git\n" = some ("foo", "bar") ∧
     extract_github_info "git@github.com:foo/bar\n" = some ("foo", "bar")) := by
  refine ⟨?_, ?_, ?_, ?_, by decide, by decide, by decide, by decide, by decide,
    by decide⟩
  · intro pre a b ha ha2 hb hb2 hpre
    unfold extract_github_info
    rw [show (String.mk (pre ++ (ghHost ++ '/' :: (a ++ '/' :: b)))).toList
        = pre ++ (ghHost ++ '/' :: (a ++ '/' :: b)) from rfl]
    rw [searchGH_append '/' pre _ hpre,
      searchGH_head_found (tryMatchAt_exact '/' a b ha ha2 hb hb2)]
  · intro pre a b ha ha2 hb hb2 hslash hcolon
    unfold extract_github_info
    rw [show (String.mk (pre ++ (ghHost ++ ':' :: (a ++ '/' :: b)))).toList
        = pre ++ (ghHost ++ ':' :: (a ++ '/' :: b)) from rfl]
    rw [searchGH_none '/' _ hslash]
    rw [searchGH_append ':' pre _ hcolon,
      searchGH_head_found (tryMatchAt_exact ':' a b ha ha2 hb hb2)]
  · intro b hnl h
    rw [dollarCapture_no_newline b hnl]
    exact captureName_clean b h
  · intro url o n h
    unfold extract_github_info at h
    cases h1 : searchGH '/' url.toList with
    | some r =>
      obtain ⟨a, b⟩ := r
      rw [h1] at h
      simp only [Option.some.injEq, Prod.mk.injEq] at h
      obtain ⟨ho, hn⟩ := h
      obtain ⟨pre, hp, h2, h3, h4, h5⟩ := searchGH_sound h1
      exact ⟨'/', pre, a, b, Or.inl rfl, hp, h2, h3, h4, h5, ho.symm, hn.symm⟩
    | none =>
      rw [h1] at h
      cases h2 : searchGH ':' url.toList with
      | some r =>
        obtain ⟨a, b⟩ := r
        rw [h2] at h
        simp only [Option.some.injEq, Prod.mk.injEq] at h
        obtain ⟨ho, hn⟩ := h
        obtain ⟨pre, hp, h3, h4, h5, h6⟩ := searchGH_sound h2
        exact ⟨':', pre, a, b, Or.inr rfl, hp, h3, h4, h5, h6, ho.symm, hn.symm⟩
      | none =>
        rw [h2] at h
        exact absurd h (by simp)

/-- Witness for C2: the amended parse law evaluated at
`https://github.com/foo/bar.git` and at the trailing-newline variant of
`github.com/a/b`, together with the clean-name law at `bar.git` (where the
result coincides with the spec's trailing-strip). -/
theorem C2_url_parser_amended_witness :
    (extract_github_info (String.mk ("https://".toList
        ++ (ghHost ++ '/' :: ("foo".toList ++ '/' :: "bar.git".toList))))
      = some (String.mk "foo".toList,
          String.mk (removeDotGit (dollarCapture "bar.git".toList)))) ∧
    (extract_github_info (String.mk ([]
        ++ (ghHost ++ '/' :: ("a".toList ++ '/' :: "b\n".toList))))
      = some (String.mk "a".toList,
          String.mk (removeDotGit (dollarCapture "b\n".toList)))) ∧
    removeDotGit (dollarCapture "bar.git".toList)
      = specStripTrailingGit "bar.git".toList :=
  ⟨C2_url_parser_amended.1 "https://".toList "foo".toList "bar.git".toList
      (by decide) (by decide) (by decide) (by decide) (by decide),
   C2_url_parser_amended.1 [] "a".toList "b\n".toList
      (by decide) (by decide) (by decide) (by decide) (by decide),
   C2_url_parser_amended.2.2.1 "bar.git".toList (by decide) (by decide)⟩

end GithubKB
